import Mathlib

/-!
Verification of the conversation sanitization and guardrail-recovery
protocol of a chat relay worker.

The development embeds, as executable Lean definitions, the two source
files of the repository:

* the worker (server) module: the constants `SYSTEM_PROMPT` and
  `SAFETY_SHIM`, the history sanitizer `buildModelMessages`, the failure
  classifier `parseGatewayError`, and the failure-mapping part of
  `handleChatRequest`;
* the browser controller `chat.js`: the conversation state, the
  turn driver `sendMessage`, `popLastUserTurn` and `rememberBlockedUser`.

Machine strings are Lean strings; JSON values are the inductive `JSValue`;
JavaScript property access is `getField` (absent property = `none`,
matching `undefined` for the comparisons the code performs).
-/

set_option autoImplicit false

namespace ChatRelay

/-- A chat message. The source manipulates plain JSON objects with `role`
and `content` fields; both are strings in every message the client builds
and in every comparison the server performs, so the embedding represents a
message by those two strings. -/
structure Message where
  role : String
  content : String
deriving DecidableEq

/-- Default system prompt of the worker (`SYSTEM_PROMPT` in the source). -/
def SYSTEM_PROMPT : String :=
  "You are a helpful, friendly assistant. Provide concise and accurate responses."

/-- Safety shim appended to the system prompt (`SAFETY_SHIM` in the source). -/
def SAFETY_SHIM : String :=
  "If a user asks for illegal, violent, or harmful instructions, refuse briefly and suggest safer, educational alternatives."

/-- The single synthesized system message pushed first by
`buildModelMessages`: role `system`, content
`SYSTEM_PROMPT ++ "\n\nSafety: " ++ SAFETY_SHIM` (the template literal of
the source). -/
def systemMessage : Message :=
  { role := "system", content := SYSTEM_PROMPT ++ "\n\nSafety: " ++ SAFETY_SHIM }

/-- Case-insensitive match of one pattern character `p` (a lowercase
letter or a space, as in the fixed phrase below) against a subject
character `c`: equal code points, or `c` is the ASCII uppercase form of
`p`. This is the per-character rule of a JavaScript `/…/i` regular
expression on an ASCII pattern, which folds case only within ASCII. -/
def charEqCI (p c : Char) : Bool :=
  p.toNat == c.toNat || (65 ≤ c.toNat && c.toNat ≤ 90 && p.toNat == c.toNat + 32)

/-- Tests whether the character list `pat` is an initial segment of the
subject, up to ASCII case. -/
def leadingMatch : List Char → List Char → Bool
  | [], _ => true
  | _ :: _, [] => false
  | p :: ps, c :: cs => charEqCI p c && leadingMatch ps cs

/-- Tests whether `pat` occurs contiguously in the subject, up to ASCII
case: the embedding of the JavaScript regular expression test
`/blocked by guardrails/i.test(content)`. -/
def occursIn (pat : List Char) : List Char → Bool
  | [] => leadingMatch pat []
  | c :: cs => leadingMatch pat (c :: cs) || occursIn pat cs

/-- The guardrail-notice test of `buildModelMessages`
(`looksLikeGuardrailNotice` in the source): an assistant message whose
content matches `/blocked by guardrails/i`. The `typeof content` guard of
the source is identically true here because contents are strings. -/
def isNotice (m : Message) : Bool :=
  m.role == "assistant" && occursIn "blocked by guardrails".data m.content.data

/-- Condition guarding the `cleaned.pop()` of the source:
`cleaned.length && cleaned[cleaned.length - 1].role === "user"`. -/
def lastIsUser (cleaned : List Message) : Bool :=
  match cleaned.getLast? with
  | some m => m.role == "user"
  | none => false

/-- One iteration of the cleaning loop of `buildModelMessages`, acting on
the accumulated `cleaned` array: skip client system messages, skip blocked
user messages, drop guardrail notices (popping the directly preceding
retained user message, if any), push everything else. -/
def cleanStep (blocked : List String) (cleaned : List Message) (m : Message) : List Message :=
  if m.role == "system" then cleaned
  else if m.role == "user" && blocked.contains m.content then cleaned
  else if isNotice m then
    if lastIsUser cleaned then cleaned.dropLast else cleaned
  else cleaned ++ [m]

/-- The cleaning loop of `buildModelMessages` (the `for` loop building
`cleaned` from `raw`). The blocked set of the source is a `Set<string>`;
membership `blocked.has(content)` is embedded as `List.contains` on the
list of blocked strings, which has the same membership semantics. -/
def clean (blocked : List String) (raw : List Message) : List Message :=
  raw.foldl (cleanStep blocked) []

/-- The windowing step of `buildModelMessages`:
`cleaned.length > 16 ? cleaned.slice(cleaned.length - 16) : cleaned`. -/
def windowed (cleaned : List Message) : List Message :=
  if cleaned.length > 16 then cleaned.drop (cleaned.length - 16) else cleaned

/-- The sanitizer `buildModelMessages(raw, blockedUserContents)` of the
worker: a single synthesized system message followed by the windowed,
cleaned history. -/
def buildModelMessages (raw : List Message) (blocked : List String) : List Message :=
  systemMessage :: windowed (clean blocked raw)

/-- A message survives every skip rule of the cleaning loop: it is not a
client system message, not a blocked user message and not a guardrail
notice. -/
def keeps (blocked : List String) (m : Message) : Bool :=
  !(m.role == "system") && !(m.role == "user" && blocked.contains m.content) && !(isNotice m)

theorem mem_cleanStep {blocked : List String} {c : List Message} {x m : Message}
    (hm : m ∈ cleanStep blocked c x) : m ∈ c ∨ (m = x ∧ keeps blocked x = true) := by
  unfold cleanStep at hm
  split at hm
  · exact Or.inl hm
  · split at hm
    · exact Or.inl hm
    · split at hm
      · split at hm
        · exact Or.inl ((List.dropLast_sublist _).subset hm)
        · exact Or.inl hm
      · rcases List.mem_append.mp hm with h | h
        · exact Or.inl h
        · rcases List.mem_singleton.mp h with rfl
          rename_i h1 h2 h3
          refine Or.inr ⟨rfl, ?_⟩
          simp only [keeps, Bool.and_eq_true, Bool.not_eq_true']
          exact ⟨⟨Bool.eq_false_iff.mpr h1, Bool.eq_false_iff.mpr h2⟩, Bool.eq_false_iff.mpr h3⟩

theorem mem_foldl_clean {blocked : List String} :
    ∀ (l : List Message) (c : List Message),
      (∀ m ∈ c, keeps blocked m = true) →
      ∀ m ∈ List.foldl (cleanStep blocked) c l, keeps blocked m = true := by
  intro l
  induction l with
  | nil => intro c hc m hm; exact hc m hm
  | cons x xs ih =>
    intro c hc m hm
    refine ih (cleanStep blocked c x) ?_ m hm
    intro y hy
    rcases mem_cleanStep hy with h | ⟨rfl, h⟩
    · exact hc y h
    · exact h

theorem mem_clean_keeps {blocked : List String} {raw : List Message} {m : Message}
    (hm : m ∈ clean blocked raw) : keeps blocked m = true :=
  mem_foldl_clean raw [] (by intro y hy; cases hy) m hm

theorem mem_windowed {c : List Message} {m : Message} (hm : m ∈ windowed c) : m ∈ c := by
  unfold windowed at hm
  split at hm
  · exact (List.drop_sublist _ _).subset hm
  · exact hm

theorem mem_buildModelMessages_tail {raw : List Message} {blocked : List String} {m : Message}
    (hm : m ∈ (buildModelMessages raw blocked).tail) : keeps blocked m = true :=
  mem_clean_keeps (mem_windowed hm)

/-- C1: every message of `buildModelMessages(H, B)` other than the
synthesized system message at position 0 has a role different from
`system`, and no retained message is a user message whose content belongs
to the block set `B`. -/
theorem sanitize_no_foreign_system_no_blocked (raw : List Message) (blocked : List String) :
    (buildModelMessages raw blocked).head? = some systemMessage ∧
    ∀ m ∈ (buildModelMessages raw blocked).tail,
      m.role ≠ "system" ∧ (m.role = "user" → blocked.contains m.content = false) := by
  refine ⟨rfl, ?_⟩
  intro m hm
  have h := mem_buildModelMessages_tail hm
  simp only [keeps, Bool.and_eq_true, Bool.not_eq_true'] at h
  obtain ⟨⟨h1, h2⟩, _⟩ := h
  constructor
  · intro hrole
    rw [hrole] at h1
    simp at h1
  · intro hrole
    rw [hrole] at h2
    simpa using h2

/-- C1 witness: instantiation of the theorem at a concrete one-message
history and a concrete block set. -/
theorem sanitize_no_foreign_system_no_blocked_witness :
    (buildModelMessages [⟨"user", "hi"⟩] ["x"]).head? = some systemMessage ∧
    ((⟨"user", "hi"⟩ : Message).role ≠ "system" ∧
      ((⟨"user", "hi"⟩ : Message).role = "user" → (["x"] : List String).contains "hi" = false)) :=
  ⟨(sanitize_no_foreign_system_no_blocked [⟨"user", "hi"⟩] ["x"]).1,
   (sanitize_no_foreign_system_no_blocked [⟨"user", "hi"⟩] ["x"]).2 ⟨"user", "hi"⟩ (by decide)⟩

theorem windowed_eq_drop (c : List Message) : windowed c = c.drop (c.length - 16) := by
  unfold windowed
  split
  · rfl
  · have : c.length - 16 = 0 := by omega
    rw [this, List.drop_zero]

theorem windowed_length_le (c : List Message) : (windowed c).length ≤ 16 := by
  rw [windowed_eq_drop, List.length_drop]
  omega

/-- C6: the sanitizer returns at most 17 messages (one synthesized system
message plus a window of at most 16), and the window keeps exactly the
trailing part of the cleaned history: only the oldest cleaned messages
beyond the last 16 are dropped. -/
theorem sanitize_length_bound (raw : List Message) (blocked : List String) :
    (buildModelMessages raw blocked).length ≤ 17 ∧
    buildModelMessages raw blocked =
      systemMessage :: (clean blocked raw).drop ((clean blocked raw).length - 16) := by
  constructor
  · have h := windowed_length_le (clean blocked raw)
    simp only [buildModelMessages, List.length_cons]
    omega
  · rw [buildModelMessages, windowed_eq_drop]

theorem clean_append (blocked : List String) (H : List Message) (m : Message) :
    clean blocked (H ++ [m]) = cleanStep blocked (clean blocked H) m := by
  unfold clean
  rw [List.foldl_append]
  rfl

/-- C3: appending an assistant guardrail notice to any history removes the
notice itself and, exactly when the last retained cleaned message is a
user message, that single message as well (by `dropLast`, which removes
one element); moreover no guardrail notice is ever retained. -/
theorem guardrail_notice_removal (blocked : List String) (H : List Message) (m : Message)
    (h : isNotice m = true) :
    clean blocked (H ++ [m]) =
      (if lastIsUser (clean blocked H) then (clean blocked H).dropLast else clean blocked H) ∧
    (clean blocked (H ++ [m])).all (fun x => !(isNotice x)) = true := by
  constructor
  · rw [clean_append]
    have h' := h
    simp only [isNotice, Bool.and_eq_true] at h'
    have hrole : m.role = "assistant" := eq_of_beq h'.1
    simp [cleanStep, hrole, h]
  · rw [List.all_eq_true]
    intro x hx
    have := mem_clean_keeps hx
    simp only [keeps, Bool.and_eq_true] at this
    simpa using this.2

/-- C3 witness: a user turn directly followed by a guardrail notice is
removed together with the notice, on a concrete two-message history. -/
theorem guardrail_notice_removal_witness :
    clean [] ([⟨"user", "X"⟩] ++ [⟨"assistant", "Request blocked by guardrails"⟩]) =
      (if lastIsUser (clean [] [⟨"user", "X"⟩]) then (clean [] [⟨"user", "X"⟩]).dropLast
       else clean [] [⟨"user", "X"⟩]) ∧
    (clean [] ([⟨"user", "X"⟩] ++ [⟨"assistant", "Request blocked by guardrails"⟩])).all
      (fun x => !(isNotice x)) = true :=
  guardrail_notice_removal [] [⟨"user", "X"⟩] ⟨"assistant", "Request blocked by guardrails"⟩
    (by decide)

theorem cleanStep_keeps {blocked : List String} {c : List Message} {m : Message}
    (h : keeps blocked m = true) : cleanStep blocked c m = c ++ [m] := by
  simp only [keeps, Bool.and_eq_true, Bool.not_eq_true'] at h
  obtain ⟨⟨h1, h2⟩, h3⟩ := h
  unfold cleanStep
  rw [h1, h2, h3]
  simp

theorem clean_noop {blocked : List String} :
    ∀ (l : List Message), (∀ m ∈ l, keeps blocked m = true) →
      ∀ (c : List Message), List.foldl (cleanStep blocked) c l = c ++ l := by
  intro l
  induction l with
  | nil => intro _ c; simp
  | cons x xs ih =>
    intro hl c
    rw [List.foldl_cons, cleanStep_keeps (hl x (List.mem_cons_self x xs)),
        ih (fun m hm => hl m (List.mem_cons_of_mem x hm)) (c ++ [x])]
    simp

theorem windowed_of_le {c : List Message} (h : c.length ≤ 16) : windowed c = c := by
  unfold windowed
  split
  · omega
  · rfl

/-- C8: the sanitizer is idempotent on its non-system part: feeding the
output of `buildModelMessages` (with the synthesized system message
stripped) back through `buildModelMessages` with the same block set
reproduces the same output. -/
theorem sanitize_idempotent (raw : List Message) (blocked : List String) :
    buildModelMessages ((buildModelMessages raw blocked).drop 1) blocked =
      buildModelMessages raw blocked := by
  have hdrop : (buildModelMessages raw blocked).drop 1 = windowed (clean blocked raw) := rfl
  rw [hdrop]
  have hkeep : ∀ m ∈ windowed (clean blocked raw), keeps blocked m = true :=
    fun m hm => mem_clean_keeps (mem_windowed hm)
  have hclean : clean blocked (windowed (clean blocked raw)) = windowed (clean blocked raw) :=
    calc clean blocked (windowed (clean blocked raw))
        = [] ++ windowed (clean blocked raw) := clean_noop _ hkeep []
      _ = windowed (clean blocked raw) := List.nil_append _
  unfold buildModelMessages
  rw [hclean, windowed_of_le (windowed_length_le _)]

/-- Imperative state of the cleaning loop of `buildModelMessages`: the
input array `raw`, the loop index `i`, and the accumulated `cleaned`
array. Carrying `raw` inside the mutable state lets the embedding state
that the loop body never writes to it. -/
structure CleanLoopState where
  raw : List Message
  i : Nat
  cleaned : List Message
deriving DecidableEq

/-- One iteration of the cleaning loop of `buildModelMessages`, as a
transformer of the full loop state: reads `raw[i]`, applies the skip, pop
and push rules to `cleaned`, and advances `i`. -/
def cleanLoopStep (blocked : List String) : CleanLoopState → CleanLoopState
  | ⟨raw, i, cleaned⟩ =>
    match raw[i]? with
    | none => ⟨raw, i + 1, cleaned⟩
    | some m =>
      if m.role == "system" then ⟨raw, i + 1, cleaned⟩
      else if m.role == "user" && blocked.contains m.content then ⟨raw, i + 1, cleaned⟩
      else if isNotice m then
        ⟨raw, i + 1, if lastIsUser cleaned then cleaned.dropLast else cleaned⟩
      else ⟨raw, i + 1, cleaned ++ [m]⟩

/-- Runs `n` iterations of the cleaning loop. -/
def cleanLoop (blocked : List String) : Nat → CleanLoopState → CleanLoopState
  | 0, s => s
  | n + 1, s => cleanLoop blocked n (cleanLoopStep blocked s)

theorem cleanLoopStep_raw (blocked : List String) (s : CleanLoopState) :
    (cleanLoopStep blocked s).raw = s.raw := by
  obtain ⟨raw, i, c⟩ := s
  simp only [cleanLoopStep]
  split
  · rfl
  · split_ifs <;> rfl

theorem cleanLoop_raw (blocked : List String) :
    ∀ (n : Nat) (s : CleanLoopState), (cleanLoop blocked n s).raw = s.raw := by
  intro n
  induction n with
  | zero => intro s; rfl
  | succ n ih =>
    intro s
    rw [cleanLoop, ih]
    exact cleanLoopStep_raw blocked s

theorem cleanLoopStep_some (blocked : List String) (raw : List Message) (i : Nat)
    (c : List Message) (m : Message) (hm : raw[i]? = some m) :
    cleanLoopStep blocked ⟨raw, i, c⟩ = ⟨raw, i + 1, cleanStep blocked c m⟩ := by
  simp only [cleanLoopStep, hm, cleanStep]
  split_ifs <;> rfl

theorem cleanLoop_cleaned (blocked : List String) (raw : List Message) :
    ∀ (n i : Nat) (c : List Message), n = raw.length - i →
      (cleanLoop blocked n ⟨raw, i, c⟩).cleaned = List.foldl (cleanStep blocked) c (raw.drop i) := by
  intro n
  induction n with
  | zero =>
    intro i c h
    have hd : raw.drop i = [] := List.drop_eq_nil_of_le (by omega)
    rw [hd]
    rfl
  | succ n ih =>
    intro i c h
    have hi : i < raw.length := by omega
    have hm : raw[i]? = some raw[i] := List.getElem?_eq_getElem hi
    rw [cleanLoop, cleanLoopStep_some blocked raw i c raw[i] hm,
        ih (i + 1) (cleanStep blocked c raw[i]) (by omega),
        List.drop_eq_getElem_cons hi, List.foldl_cons]

/-- C10: running the cleaning loop of `buildModelMessages` to completion
leaves the input history untouched — the `pop` acts only on the
internally built `cleaned` array — and the `cleaned` array it produces is
exactly the one the pure model `clean` computes. -/
theorem buildModelMessages_preserves_input (raw : List Message) (blocked : List String) :
    (cleanLoop blocked raw.length ⟨raw, 0, []⟩).raw = raw ∧
    (cleanLoop blocked raw.length ⟨raw, 0, []⟩).cleaned = clean blocked raw := by
  constructor
  · exact cleanLoop_raw blocked raw.length ⟨raw, 0, []⟩
  · have h := cleanLoop_cleaned blocked raw raw.length 0 [] (by omega)
    simpa [clean] using h

/-- A JSON value, the result of parsing a request or response body.
Numbers are embedded as integers: the only numeric operations the code
performs are strict equality tests against the integer guardrail codes
2016 and 2017. -/
inductive JSValue where
  | null
  | bool (b : Bool)
  | num (n : Int)
  | str (s : String)
  | arr (elems : List JSValue)
  | obj (fields : List (String × JSValue))

/-- First binding of a key in an association list of object fields. -/
def lookupField (fields : List (String × JSValue)) (k : String) : Option JSValue :=
  match fields with
  | [] => none
  | (k2, v) :: rest => if k2 = k then some v else lookupField rest k

/-- JavaScript property access `v[k]` on a JSON value: a present field of
an object, and `undefined` (here `none`) on everything else, which is how
every access in the source behaves on JSON data. -/
def getField : JSValue → String → Option JSValue
  | .obj fs, k => lookupField fs k
  | _, _ => none

/-- The guard `body && typeof body === "object"` of `parseGatewayError`:
`null` is falsy, and among JSON values only arrays and objects have
`typeof` equal to `"object"` and are truthy. -/
def isObjTruthy : JSValue → Bool
  | .arr _ => true
  | .obj _ => true
  | _ => false

/-- The test `typeof v === "object"` alone: true for objects, arrays and
`null`. -/
def typeofObject : JSValue → Bool
  | .null => true
  | .arr _ => true
  | .obj _ => true
  | _ => false

/-- Result shape of `parseGatewayError`: optional `code` and `message`
values taken verbatim from the body (the source reads them with `as any`,
so they can be arbitrary values, not only numbers and strings). -/
structure ErrInfo where
  code : Option JSValue
  message : Option JSValue

/-- The test `arr1 && arr1.length && typeof arr1[0] === "object"` applied
to `Array.isArray(x) ? x : undefined`: yields element 0 of a non-empty
array whose first element is object-typed. A `null` element 0 passes the
`typeof` test; reading `null.code` then throws, the `catch` returns the
empty result, and that observable outcome coincides with `getField`
returning `none` on `null`. -/
def arrayHeadObject (v : Option JSValue) : Option JSValue :=
  match v with
  | some (.arr (e :: _)) => if typeofObject e then some e else none
  | _ => none

/-- The test `typeof x === "string"` applied to an optional field value:
yields the string when the field holds one. -/
def stringField (v : Option JSValue) : Option String :=
  match v with
  | some (.str s) => some s
  | _ => none

/-- The classifier `parseGatewayError(body)` of the worker: tries the
five body shapes in source order and returns on the first hit, empty
result otherwise. -/
def parseGatewayError (body : JSValue) : ErrInfo :=
  if isObjTruthy body then
    match arrayHeadObject (getField body "error") with
    | some e => ⟨getField e "code", getField e "message"⟩
    | none =>
      match arrayHeadObject (getField body "errors") with
      | some e => ⟨getField e "code", getField e "message"⟩
      | none =>
        match stringField (getField body "error") with
        | some s => ⟨none, some (.str s)⟩
        | none =>
          match stringField (getField body "message") with
          | some s => ⟨none, some (.str s)⟩
          | none =>
            match stringField (getField body "detail") with
            | some s => ⟨none, some (.str s)⟩
            | none => ⟨none, none⟩
  else ⟨none, none⟩

/-- Shape (a)/(b) of the specification: a key holding a non-empty array
whose element 0 is object-typed gives `code`/`message` from element 0. -/
def specObjArray (body : JSValue) (key : String) : Option ErrInfo :=
  (arrayHeadObject (getField body key)).map fun e => ⟨getField e "code", getField e "message"⟩

/-- Shapes (c)/(d)/(e) of the specification: a string-valued key gives a
message only. -/
def specString (body : JSValue) (key : String) : Option ErrInfo :=
  (stringField (getField body key)).map fun s => ⟨none, some (.str s)⟩

/-- The classifier as the specification words it: the first of the five
shapes, tried in order, that matches; the empty result when none does.
Written independently of the guard structure of the source. -/
def classifySpec (body : JSValue) : ErrInfo :=
  (((((specObjArray body "error").orElse fun _ => specObjArray body "errors").orElse fun _ =>
      specString body "error").orElse fun _ =>
      specString body "message").orElse fun _ =>
      specString body "detail").getD ⟨none, none⟩

/-- C4: on every JSON input, `parseGatewayError` computes exactly the
first-match classification the specification describes — the five shapes
tried in order, with the empty result when none matches; in particular it
is a total function and propagates no failure. -/
theorem parseGatewayError_matches_spec (body : JSValue) :
    parseGatewayError body = classifySpec body := by
  cases body with
  | obj fs =>
    simp only [parseGatewayError, classifySpec, specObjArray, specString, isObjTruthy, if_true]
    cases arrayHeadObject (getField (JSValue.obj fs) "error") <;>
      cases arrayHeadObject (getField (JSValue.obj fs) "errors") <;>
        cases stringField (getField (JSValue.obj fs) "error") <;>
          cases stringField (getField (JSValue.obj fs) "message") <;>
            cases stringField (getField (JSValue.obj fs) "detail") <;>
              rfl
  | null => rfl
  | bool b => rfl
  | num n => rfl
  | str s => rfl
  | arr es => rfl

/-- Generic user-facing fallback of the failure path of
`handleChatRequest`. -/
def GENERIC_ERROR_MESSAGE : String := "An error occurred while processing your request."

/-- Strict equality `code === n` of the extracted `code` value with an
integer literal: true only when `code` holds exactly that number. -/
def codeIs (r : ErrInfo) (n : Int) : Bool :=
  match r.code with
  | some (.num m) => m == n
  | _ => false

/-- The branch `typeof message === "string" && message.length` of
`handleChatRequest`: a non-empty extracted message string is used
verbatim, anything else falls back to the generic text. -/
def messageOrFallback (message : Option JSValue) : String :=
  match message with
  | some (.str s) => if s.length != 0 then s else GENERIC_ERROR_MESSAGE
  | _ => GENERIC_ERROR_MESSAGE

/-- User-facing message computed by `handleChatRequest` from a parsed
failure body. -/
def failureBodyMessage (b : JSValue) : String :=
  let r := parseGatewayError b
  if codeIs r 2016 then "Prompt was blocked by guardrails."
  else if codeIs r 2017 then "Response was blocked by guardrails."
  else messageOrFallback r.message

/-- User-facing message for a failed model call: `none` stands for
`aiResponse.json()` throwing, in which case the `catch` leaves the
initial generic message in place. -/
def failureUserMessage (body : Option JSValue) : String :=
  match body with
  | some b => failureBodyMessage b
  | none => GENERIC_ERROR_MESSAGE

/-- An HTTP response of the worker, reduced to status and JSON body. -/
structure HttpResponse where
  status : Nat
  body : JSValue

/-- The response `handleChatRequest` returns for a failed model call:
`JSON.stringify({ error: userMessage })` with `status: aiResponse.status`. -/
def failureResponse (status : Nat) (body : Option JSValue) : HttpResponse :=
  { status := status, body := .obj [("error", .str (failureUserMessage body))] }

/-- Classified numeric code of the specification mapping: the code value
when it is a number. -/
def specCode (r : ErrInfo) : Option Int :=
  match r.code with
  | some (.num n) => some n
  | _ => none

/-- Classified non-empty message string of the specification mapping. -/
def specMessageText (r : ErrInfo) : Option String :=
  match r.message with
  | some (.str s) => if s = "" then none else some s
  | _ => none

/-- The downstream mapping as the specification words it: 2016 means
prompt blocked, 2017 means response blocked, otherwise a present
non-empty message string verbatim, otherwise the generic fallback. -/
def specUserMessage (r : ErrInfo) : String :=
  if specCode r = some 2016 then "Prompt was blocked by guardrails."
  else if specCode r = some 2017 then "Response was blocked by guardrails."
  else (specMessageText r).getD GENERIC_ERROR_MESSAGE

/-- The full expected failure text of the specification, covering an
unparseable body. -/
def specFailureText (body : Option JSValue) : String :=
  match body with
  | some b => specUserMessage (parseGatewayError b)
  | none => GENERIC_ERROR_MESSAGE

theorem codeIs_iff (r : ErrInfo) (n : Int) : codeIs r n = true ↔ specCode r = some n := by
  obtain ⟨code, message⟩ := r
  cases code with
  | none => simp [codeIs, specCode]
  | some v => cases v <;> simp [codeIs, specCode]

theorem eq_empty_of_length_zero (t : String) (ht : t.length = 0) : t = "" := by
  obtain ⟨data⟩ := t
  have hd : data = [] := List.length_eq_zero.mp ht
  rw [hd]

theorem messageOrFallback_eq (r : ErrInfo) :
    messageOrFallback r.message = (specMessageText r).getD GENERIC_ERROR_MESSAGE := by
  obtain ⟨code, message⟩ := r
  cases message with
  | none => rfl
  | some v =>
    cases v with
    | str s =>
      rcases eq_or_ne s "" with rfl | hs
      · rfl
      · have h1 : (s.length != 0) = true := by
          rw [bne_iff_ne]
          exact fun hc => hs (eq_empty_of_length_zero s hc)
        simp only [messageOrFallback, specMessageText, h1, if_true, if_neg hs]
        rfl
    | null => rfl
    | bool b => rfl
    | num m => rfl
    | arr es => rfl
    | obj fs => rfl

theorem userMessage_eq_spec (r : ErrInfo) :
    (if codeIs r 2016 then "Prompt was blocked by guardrails."
     else if codeIs r 2017 then "Response was blocked by guardrails."
     else messageOrFallback r.message) = specUserMessage r := by
  unfold specUserMessage
  rw [messageOrFallback_eq r]
  exact if_congr (codeIs_iff r 2016) rfl (if_congr (codeIs_iff r 2017) rfl rfl)

theorem failureBodyMessage_eq_spec (b : JSValue) :
    failureBodyMessage b = specUserMessage (parseGatewayError b) :=
  userMessage_eq_spec (parseGatewayError b)

/-- C5: for every failed model call, the worker passes the upstream
status through unchanged and replaces the body with
`{ error: <text> }` where the text follows the specification mapping:
code 2016 gives the prompt-blocked sentence, 2017 the response-blocked
sentence, otherwise a present non-empty classified message is used
verbatim, otherwise the generic fallback (also used when reading the
failure body throws). -/
theorem failure_mapping_matches_spec (status : Nat) (body : Option JSValue) :
    (failureResponse status body).status = status ∧
    (failureResponse status body).body = .obj [("error", .str (specFailureText body))] := by
  refine ⟨rfl, ?_⟩
  cases body with
  | none => rfl
  | some b =>
    show JSValue.obj [("error", .str (failureUserMessage (some b)))] = _
    rw [show failureUserMessage (some b) = failureBodyMessage b from rfl,
        failureBodyMessage_eq_spec b]
    rfl

/-- Extraction of the `messages` request field:
`Array.isArray(raw?.messages) ? raw.messages : []`. -/
def extractMessages (raw : JSValue) : List JSValue :=
  match getField raw "messages" with
  | some (.arr xs) => xs
  | _ => []

/-- Extraction of the `blockedUserContents` request field:
`Array.isArray(raw?.blockedUserContents) ? raw.blockedUserContents : []`. -/
def extractBlockedUserContents (raw : JSValue) : List JSValue :=
  match getField raw "blockedUserContents" with
  | some (.arr xs) => xs
  | _ => []

/-- String members of the blocked list. The source builds
`new Set(list)` of arbitrary values but queries membership only at string
contents, so only string members can ever match. -/
def blockedStrings (raw : JSValue) : List String :=
  (extractBlockedUserContents raw).filterMap fun v =>
    match v with
    | .str s => some s
    | _ => none

/-- View of a JSON request message as a `Message`. The source forwards
the values uninspected; for the role and content comparisons the
sanitizer performs on JSON data, an absent or non-string field behaves as
a value matching no role string and no blocked string, embedded by the
empty string here. -/
def toMessage (v : JSValue) : Message :=
  { role := (match getField v "role" with | some (.str s) => s | _ => ""),
    content := (match getField v "content" with | some (.str s) => s | _ => "") }

/-- Outcome of the model invocation as seen by the request handler. -/
inductive UpstreamOutcome where
  | success
  | failure (status : Nat) (body : Option JSValue)

/-- Response of the chat route: a streaming success response, or a JSON
error body with a status. -/
inductive ChatResponse where
  | streamOk
  | jsonError (status : Nat) (body : JSValue)

/-- The request pipeline of `handleChatRequest` on a parsed JSON body:
default the two request fields, sanitize, and answer according to the
upstream outcome. The returned message list is the payload sent to the
model. -/
def handleChat (body : JSValue) (upstream : UpstreamOutcome) : List Message × ChatResponse :=
  let messages := (extractMessages body).map toMessage
  let blocked := blockedStrings body
  let modelMessages := buildModelMessages messages blocked
  match upstream with
  | .success => (modelMessages, .streamOk)
  | .failure st fb => (modelMessages, .jsonError st (failureResponse st fb).body)

/-- Tests whether a key of the request body holds an array. -/
def isArrayField (b : JSValue) (k : String) : Bool :=
  match getField b k with
  | some (.arr _) => true
  | _ => false

/-- C9: a request body whose `messages` and `blockedUserContents` fields
are missing or not arrays is processed exactly like a request with empty
collections: both extractions default to empty and the pipeline produces
the same response as for the empty request, not an error. -/
theorem malformed_input_defaults (body : JSValue) (upstream : UpstreamOutcome)
    (h1 : isArrayField body "messages" = false)
    (h2 : isArrayField body "blockedUserContents" = false) :
    extractMessages body = [] ∧ extractBlockedUserContents body = [] ∧
    handleChat body upstream = handleChat (.obj []) upstream := by
  have e1 : extractMessages body = [] := by
    unfold isArrayField at h1
    unfold extractMessages
    rcases hg : getField body "messages" with _ | v
    · rfl
    · rw [hg] at h1
      cases v <;> simp_all
  have e2 : extractBlockedUserContents body = [] := by
    unfold isArrayField at h2
    unfold extractBlockedUserContents
    rcases hg : getField body "blockedUserContents" with _ | v
    · rfl
    · rw [hg] at h2
      cases v <;> simp_all
  refine ⟨e1, e2, ?_⟩
  unfold handleChat blockedStrings
  rw [e1, e2]
  rfl

/-- C9 witness: a string request body has neither field; it is handled
like the empty request. -/
theorem malformed_input_defaults_witness :
    extractMessages (.str "oops") = [] ∧ extractBlockedUserContents (.str "oops") = [] ∧
    handleChat (.str "oops") .success = handleChat (.obj []) .success :=
  malformed_input_defaults (.str "oops") .success rfl rfl

/-- State owned by the browser controller: the mutable `chatHistory`
array and the `blockedUserContents` array of `chat.js`. -/
structure ClientState where
  chatHistory : List Message
  blockedUserContents : List String
deriving DecidableEq

/-- Initial client state: the seed assistant greeting and an empty block
list. -/
def initialClientState : ClientState :=
  { chatHistory :=
      [⟨"assistant",
        "Hello! I'm an LLM chat app powered by Cloudflare Workers AI. How can I help you today?"⟩],
    blockedUserContents := [] }

/-- The request body `{ messages, blockedUserContents }` the client posts
to the chat route. -/
structure SanitizedRequest where
  messages : List Message
  blockedUserContents : List String
deriving DecidableEq

/-- Removes the first message with role `user` from a list, keeping
everything else. -/
def removeFirstUser : List Message → List Message
  | [] => []
  | m :: rest => if m.role == "user" then rest else m :: removeFirstUser rest

/-- The `popLastUserTurn` of `chat.js`: scan backward for the nearest
entry with role `user` and remove exactly that one (no change when none
exists). -/
def popLastUserTurn (l : List Message) : List Message :=
  (removeFirstUser l.reverse).reverse

/-- The `rememberBlockedUser` of `chat.js`: ignore empty text, ignore a
text already present, otherwise push at the end and, when the list then
exceeds 20 entries, shift the oldest entry off the front. The local
variable for the pushed list is inlined. -/
def rememberBlockedUser (l : List String) (text : String) : List String :=
  if text = "" then l
  else if l.contains text then l
  else if (l ++ [text]).length > 20 then (l ++ [text]).drop 1 else l ++ [text]

/-- Outcome of one `fetch` of the chat route, as classified by the
`mapError` regular expressions of `chat.js` on failure, or by the stream
reader on success (`acc` is the accumulated streamed text). The claims
quantify over outcomes at this classification level. -/
inductive FetchOutcome where
  | promptBlocked
  | responseBlocked
  | genericError
  | success (acc : String)
deriving DecidableEq

/-- One turn of the controller `sendMessage` of `chat.js`, for a given
(already trimmed) input text and fetch outcome: empty text is ignored
(the `isProcessing` guard is implicit in the sequential model); otherwise
the user message is appended, the request is built by filtering the
history against the local block list, and the state is updated according
to the outcome — retract and remember on prompt block, append the
accumulated assistant text (or the placeholder) on success, keep the
history otherwise. Returns the new state and the request sent, if any. -/
def sendMessage (s : ClientState) (message : String) (outcome : FetchOutcome) :
    ClientState × Option SanitizedRequest :=
  if message = "" then (s, none)
  else
    let hist1 := s.chatHistory ++ [⟨"user", message⟩]
    let sanitizedMessages := hist1.filter
      (fun m => !(m.role == "user" && s.blockedUserContents.contains m.content))
    let req : SanitizedRequest :=
      { messages := sanitizedMessages, blockedUserContents := s.blockedUserContents }
    match outcome with
    | .promptBlocked =>
        ({ chatHistory := popLastUserTurn hist1,
           blockedUserContents := rememberBlockedUser s.blockedUserContents message }, some req)
    | .responseBlocked => ({ s with chatHistory := hist1 }, some req)
    | .genericError => ({ s with chatHistory := hist1 }, some req)
    | .success acc =>
        ({ s with chatHistory := hist1 ++ [⟨"assistant", if acc = "" then "…" else acc⟩] },
         some req)

theorem contains_false_of_not_mem {l : List String} {t : String} (h : t ∉ l) :
    l.contains t = false := by
  cases hc : l.contains t
  · rfl
  · exact absurd (List.elem_iff.mp hc) h

theorem rememberBlockedUser_nodup (l : List String) (t : String) (h : l.Nodup) :
    (rememberBlockedUser l t).Nodup := by
  unfold rememberBlockedUser
  split
  · exact h
  · split
    · exact h
    · rename_i hc
      have hmem : t ∉ l := fun hm => hc (List.elem_iff.mpr hm)
      have happ : (l ++ [t]).Nodup := by
        rw [List.nodup_append]
        exact ⟨h, List.nodup_singleton t,
          fun a ha hb => hmem ((List.mem_singleton.mp hb) ▸ ha)⟩
      split
      · exact happ.sublist (List.drop_sublist 1 (l ++ [t]))
      · exact happ

theorem rememberBlockedUser_length (l : List String) (t : String) (h : l.length ≤ 20) :
    (rememberBlockedUser l t).length ≤ 20 := by
  unfold rememberBlockedUser
  have hlapp : (l ++ [t]).length = l.length + 1 := by
    rw [List.length_append, List.length_singleton]
  by_cases ht : t = ""
  · rw [if_pos ht]; exact h
  · rw [if_neg ht]
    by_cases hc : l.contains t = true
    · rw [if_pos hc]; exact h
    · rw [if_neg hc]
      by_cases hlen : (l ++ [t]).length > 20
      · rw [if_pos hlen, List.length_drop, hlapp]
        omega
      · rw [if_neg hlen]
        omega

theorem rememberBlockedUser_noop (l : List String) (t : String) (h : l.contains t = true) :
    rememberBlockedUser l t = l := by
  unfold rememberBlockedUser
  by_cases ht : t = ""
  · rw [if_pos ht]
  · rw [if_neg ht, if_pos h]

theorem rememberBlockedUser_evicts (l : List String) (t : String) (ht : t ≠ "")
    (hc : l.contains t = false) (hl : l.length = 20) :
    rememberBlockedUser l t = l.drop 1 ++ [t] := by
  have hlapp : (l ++ [t]).length = l.length + 1 := by
    rw [List.length_append, List.length_singleton]
  unfold rememberBlockedUser
  rw [if_neg ht, if_neg (by rw [hc]; exact Bool.false_ne_true),
      if_pos (by rw [hlapp, hl]; omega),
      List.drop_append_of_le_length (by omega)]

theorem foldl_rememberBlockedUser (ts : List String) (hts : ts.Nodup)
    (hne : ∀ x ∈ ts, x ≠ "") :
    List.foldl rememberBlockedUser [] ts = ts.drop (ts.length - 20) := by
  induction ts using List.reverseRecOn with
  | nil => rfl
  | append_singleton l t ih =>
    obtain ⟨hl, -, hdisj⟩ := List.nodup_append.mp hts
    have htl : t ∉ l := fun hm => hdisj hm (List.mem_singleton_self t)
    have hnel : ∀ x ∈ l, x ≠ "" := fun x hx => hne x (List.mem_append_left _ hx)
    have hnet : t ≠ "" := hne t (List.mem_append_right _ (List.mem_singleton_self t))
    rw [List.foldl_append, List.foldl_cons, List.foldl_nil, ih hl hnel]
    have hdc : (l.drop (l.length - 20)).contains t = false :=
      contains_false_of_not_mem fun hm => htl ((List.drop_sublist _ _).subset hm)
    have hlapp : (l ++ [t]).length = l.length + 1 := by
      rw [List.length_append, List.length_singleton]
    by_cases hlen : l.length < 20
    · have h0 : l.length - 20 = 0 := by omega
      rw [h0, List.drop_zero] at hdc ⊢
      unfold rememberBlockedUser
      rw [if_neg hnet, if_neg (by rw [hdc]; exact Bool.false_ne_true),
          if_neg (by rw [hlapp]; omega)]
      have h1 : (l ++ [t]).length - 20 = 0 := by rw [hlapp]; omega
      rw [h1, List.drop_zero]
    · have hdl : (l.drop (l.length - 20)).length = 20 := by
        rw [List.length_drop]; omega
      have harith : (l ++ [t]).length - 20 = l.length - 20 + 1 := by
        rw [hlapp]; omega
      rw [rememberBlockedUser_evicts _ t hnet hdc hdl, List.drop_drop, harith,
          List.drop_append_of_le_length (by omega)]

/-- C7: the block list operation keeps entries distinct and at most 20,
is a no-op on an already-present text, evicts exactly the oldest entry
when an insert would exceed the capacity, and inserting any sequence of
distinct nonempty texts starting from the empty list leaves exactly the
most recent 20 of them. -/
theorem blockList_invariants (ts : List String) (hts : ts.Nodup) (hne : ∀ x ∈ ts, x ≠ "") :
    (∀ l t, l.Nodup → (rememberBlockedUser l t).Nodup) ∧
    (∀ l t, l.length ≤ 20 → (rememberBlockedUser l t).length ≤ 20) ∧
    (∀ l t, l.contains t = true → rememberBlockedUser l t = l) ∧
    (∀ l t, t ≠ "" → l.contains t = false → l.length = 20 →
        rememberBlockedUser l t = l.drop 1 ++ [t]) ∧
    List.foldl rememberBlockedUser [] ts = ts.drop (ts.length - 20) := by
  refine ⟨?_, ?_, ?_, ?_, ?_⟩
  · exact rememberBlockedUser_nodup
  · exact rememberBlockedUser_length
  · exact rememberBlockedUser_noop
  · exact rememberBlockedUser_evicts
  · exact foldl_rememberBlockedUser ts hts hne

/-- Twenty-five distinct nonempty strings. -/
def ts25 : List String := (List.range 25).map fun i => "s" ++ toString i

/-- A full block list of twenty distinct nonempty strings. -/
def evictFull : List String := (List.range 20).map fun i => "e" ++ toString i

/-- C7 witness: the invariants instantiated at concrete lists, including
the 25-insert run that leaves the most recent 20. -/
theorem blockList_invariants_witness :
    (rememberBlockedUser ["a"] "b").Nodup ∧
    (rememberBlockedUser ["a"] "b").length ≤ 20 ∧
    rememberBlockedUser ["a"] "a" = ["a"] ∧
    rememberBlockedUser evictFull "z" = evictFull.drop 1 ++ ["z"] ∧
    List.foldl rememberBlockedUser [] ts25 = ts25.drop (ts25.length - 20) := by
  obtain ⟨h1, h2, h3, h4, h5⟩ := blockList_invariants ts25 (by decide) (by decide)
  exact ⟨h1 ["a"] "b" (by decide), h2 ["a"] "b" (by decide), h3 ["a"] "a" (by decide),
         h4 evictFull "z" (by decide) (by decide) (by decide), h5⟩

theorem popLastUserTurn_append_user (h : List Message) (t : String) :
    popLastUserTurn (h ++ [Message.mk "user" t]) = h := by
  unfold popLastUserTurn
  rw [List.reverse_append]
  simp [removeFirstUser]

theorem rememberBlockedUser_contains (l : List String) (t : String) (ht : t ≠ "") :
    (rememberBlockedUser l t).contains t = true := by
  unfold rememberBlockedUser
  rw [if_neg ht]
  by_cases hc : l.contains t = true
  · rw [if_pos hc]; exact hc
  · rw [if_neg hc]
    split
    · rename_i hlen
      cases l with
      | nil => simp at hlen
      | cons x xs => exact List.elem_iff.mpr (by simp)
    · exact List.elem_iff.mpr (by simp)

theorem sendMessage_request (s : ClientState) (u : String) (o : FetchOutcome)
    (req : SanitizedRequest) (hreq : (sendMessage s u o).2 = some req) :
    req = { messages := (s.chatHistory ++ [Message.mk "user" u]).filter
              (fun m => !(m.role == "user" && s.blockedUserContents.contains m.content)),
            blockedUserContents := s.blockedUserContents } := by
  unfold sendMessage at hreq
  by_cases hu : u = ""
  · rw [if_pos hu] at hreq
    simp at hreq
  · rw [if_neg hu] at hreq
    cases o <;> exact (Option.some.inj hreq).symm

/-- C2 (amended): after a prompt-blocked send of nonempty user text `t`,
the controller removes exactly the appended trailing user entry — the
conversation returns to its pre-send state — and inserts `t` into the
block list; and every `SanitizedRequest` built by a send from any state
whose block list still contains `t` lists `t` in `blockedUserContents`
and contains no user-role message with content `t`. -/
theorem turn_retraction_amended (s : ClientState) (t : String) (ht : t ≠ "")
    (s2 : ClientState) (u : String) (o : FetchOutcome) (req : SanitizedRequest)
    (hmem : s2.blockedUserContents.contains t = true)
    (hreq : (sendMessage s2 u o).2 = some req) :
    (sendMessage s t .promptBlocked).1.chatHistory = s.chatHistory ∧
    (sendMessage s t .promptBlocked).1.blockedUserContents.contains t = true ∧
    req.blockedUserContents.contains t = true ∧
    req.messages.all (fun m => !(m.role == "user" && m.content == t)) = true := by
  refine ⟨?_, ?_, ?_, ?_⟩
  · unfold sendMessage
    rw [if_neg ht]
    exact popLastUserTurn_append_user s.chatHistory t
  · unfold sendMessage
    rw [if_neg ht]
    exact rememberBlockedUser_contains s.blockedUserContents t ht
  · rw [sendMessage_request s2 u o req hreq]
    exact hmem
  · rw [sendMessage_request s2 u o req hreq, List.all_eq_true]
    intro m hm
    rw [List.mem_filter] at hm
    obtain ⟨-, hpred⟩ := hm
    by_cases hb : (m.role == "user" && m.content == t) = true
    · exfalso
      have hb2 : (m.role == "user") = true ∧ (m.content == t) = true := by
        simpa [Bool.and_eq_true] using hb
      obtain ⟨hr, hcont⟩ := hb2
      have hct : m.content = t := eq_of_beq hcont
      rw [Bool.not_eq_true'] at hpred
      rw [hr, hct, hmem] at hpred
      simp at hpred
    · rw [Bool.eq_false_iff.mpr hb]
      rfl

/-- Concrete state with `bad` in the block list. -/
def blockedStateExample : ClientState := { chatHistory := [], blockedUserContents := ["bad"] }

/-- Concrete request built by a send from `blockedStateExample`. -/
def reqExample : SanitizedRequest :=
  { messages := [⟨"user", "x"⟩], blockedUserContents := ["bad"] }

/-- C2 (amended) witness: the theorem instantiated at a concrete blocked
send and a concrete later send. -/
theorem turn_retraction_amended_witness :
    (sendMessage initialClientState "bad" .promptBlocked).1.chatHistory =
      initialClientState.chatHistory ∧
    (sendMessage initialClientState "bad" .promptBlocked).1.blockedUserContents.contains "bad" =
      true ∧
    reqExample.blockedUserContents.contains "bad" = true ∧
    reqExample.messages.all (fun m => !(m.role == "user" && m.content == "bad")) = true :=
  turn_retraction_amended initialClientState "bad" (by decide) blockedStateExample "x"
    .genericError reqExample (by decide) (by rfl)

/-- State reached by a prompt-blocked send of `bad` followed by twenty
further prompt-blocked sends of distinct texts: the FIFO bound of the
block list has evicted `bad`. -/
def evictionTrace : ClientState :=
  (List.range 20).foldl
    (fun st i => (sendMessage st ("b" ++ toString i) .promptBlocked).1)
    (sendMessage initialClientState "bad" .promptBlocked).1

/-- State reached by a prompt-blocked send of `bad` followed by a
successful send whose streamed assistant reply is exactly `bad`. -/
def echoTrace : ClientState :=
  (sendMessage (sendMessage initialClientState "bad" .promptBlocked).1 "ok" (.success "bad")).1

/-- C2 counterexample: the claim as stated fails on two concrete
sessions. After `bad` is retracted and twenty further distinct prompts
are blocked, the next request no longer lists `bad` in
`blockedUserContents` (FIFO eviction); and after the assistant echoes
`bad` in a successful turn, a later request contains a message whose
content equals `bad` (only user-role messages are filtered) even though
`bad` is still in the block list. -/
theorem turn_retraction_counterexample :
    ((sendMessage evictionTrace "ok" (.success "reply")).2.map
      (fun r => r.blockedUserContents.contains "bad")) = some false ∧
    echoTrace.blockedUserContents.contains "bad" = true ∧
    ((sendMessage echoTrace "next" .genericError).2.map
      (fun r => r.messages.any (fun m => m.content == "bad"))) = some true := by
  refine ⟨by decide, by decide, by decide⟩

end ChatRelay
